import Mathlib

/-!
Verification of the GPzoo.js core: dense linear-algebra primitives
(`cholesky`, `solveL`, `solveLT`, `choleskySolve`, `linspace`, `addDiag`,
`matVec`), the kernel registry (`rbf`, `matern12`, `matern32`, `matern52`,
`KERNEL_FNS`), and the GP inference engine (`computePosterior`,
`sampleFromGP`).

Modelling conventions:
* JavaScript numbers are modelled as exact reals (`ℝ`).
* JavaScript arrays appearing at the API surface are `List ℝ` /
  `List (List ℝ)`; the internal dense matrices handed to the factorization
  and solves are embedded as index functions `ℕ → ℝ` / `ℕ → ℕ → ℝ`, bridged
  from lists by `vecEntry` / `entry` (out-of-range reads give the junk value
  0, which is never used within the stated bounds).
* The source of randomness consumed by `sampleFromGP` (one call to `randn()`
  per sample coordinate) is made explicit as an argument `z : ℕ → ℝ` holding
  the standard-normal draws.
* For the fail-fast analysis of dimension mismatches, JavaScript evaluation
  is modelled by `JSNum`, which tracks NaN propagation: an out-of-range array
  read yields `undefined`, and arithmetic on `undefined` yields NaN.
* For the kernel-name fallback analysis, the JavaScript property access
  `KERNEL_FNS[kernelName]` is modelled in full (`kernelFnsLookup`): the
  object literal inherits `Object.prototype`, so besides the four registered
  kernels the lookup can reach the inherited prototype methods and the
  `__proto__` accessor, which are truthy and therefore bypass the `|| rbf`
  fallback; `callKernelJS` models the strict-mode call of the resolved
  value, including the TypeError thrown when it is not callable.
-/

noncomputable section

open scoped BigOperators

/-- JavaScript numeric value for the dimension-mismatch analysis: either an
ordinary number or NaN (the result of arithmetic on `undefined`/NaN). -/
inductive JSNum where
  | num (v : ℝ)
  | nan
  deriving DecidableEq

/-- JavaScript addition: NaN absorbs. -/
def JSNum.add : JSNum → JSNum → JSNum
  | JSNum.num a, JSNum.num b => JSNum.num (a + b)
  | _, _ => JSNum.nan

/-- JavaScript multiplication: NaN absorbs (even `0 * NaN` is NaN). -/
def JSNum.mul : JSNum → JSNum → JSNum
  | JSNum.num a, JSNum.num b => JSNum.num (a * b)
  | _, _ => JSNum.nan

/-- JavaScript array indexing `x[i]` followed by use in arithmetic:
in range it is the stored number, out of range it is `undefined`, which
becomes NaN as soon as arithmetic touches it. -/
def jsIdx (x : List ℝ) (i : ℕ) : JSNum :=
  match x[i]? with
  | some v => JSNum.num v
  | none => JSNum.nan

/-- Embedding of `matVec(A, x)` (`A.map(row => row.reduce((s, a, i) => s + a * x[i], 0))`)
under JavaScript semantics, tracking what happens when the column count of a
row exceeds `x.length`. -/
def matVecJS (A : List (List ℝ)) (x : List ℝ) : List JSNum :=
  A.map (fun row =>
    row.enum.foldl (fun s p => s.add ((JSNum.num p.2).mul (jsIdx x p.1))) (JSNum.num 0))

/-- Read entry `i` of a vector stored as a list (`v[i]`; junk 0 out of range). -/
def vecEntry (v : List ℝ) (i : ℕ) : ℝ := v.getD i 0

/-- Read entry `(i, j)` of a matrix stored as a list of rows (`A[i][j]`). -/
def entry (A : List (List ℝ)) (i j : ℕ) : ℝ := vecEntry (A.getD i []) j

/-- Embedding of `linspace(start, end, n)`:
`step = (end - start) / (n - 1)`, element `i` is `start + i * step`. -/
def linspace (start stop : ℝ) (n : ℕ) : List ℝ :=
  (List.range n).map (fun i : ℕ => start + (i : ℝ) * ((stop - start) / ((n : ℝ) - 1)))

/-- Embedding of `addDiag(A, c)`: add `c` to every diagonal entry. -/
def addDiag (A : List (List ℝ)) (c : ℝ) : List (List ℝ) :=
  A.enum.map (fun p => p.2.enum.map (fun q => if p.1 = q.1 then q.2 + c else q.2))

/-- Embedding of `cholesky(A)` as an entrywise recurrence on the index
function of the matrix.  The source fills a zero matrix row by row, writing
only columns `j ≤ i`; entries above the diagonal stay 0.  For `j < i` it
writes `(A[i][j] - Σ_{k<j} L[i][k]·L[j][k]) / L[j][j]`, and on the diagonal
`sqrt(max(A[i][i] - Σ_{k<i} L[i][k]², 1e-10))`. -/
def cholesky (A : ℕ → ℕ → ℝ) : ℕ → ℕ → ℝ
  | i, j =>
    if i < j then 0
    else if i = j then
      Real.sqrt (max (A i i - ∑ k ∈ (Finset.range i).attach, (cholesky A i k.1) ^ 2) 1e-10)
    else
      (A i j - ∑ k ∈ (Finset.range j).attach, cholesky A i k.1 * cholesky A j k.1) /
        cholesky A j j
termination_by i j => i + j
decreasing_by
  · have := Finset.mem_range.mp k.2; omega
  · have := Finset.mem_range.mp k.2; omega
  · have := Finset.mem_range.mp k.2; omega
  · omega

/-- Embedding of `solveL(L, b)` (forward substitution):
`x[i] = (b[i] - Σ_{j<i} L[i][j]·x[j]) / L[i][i]`. -/
def solveL (L : ℕ → ℕ → ℝ) (b : ℕ → ℝ) : ℕ → ℝ
  | i =>
    (b i - ∑ j ∈ (Finset.range i).attach, L i j.1 * solveL L b j.1) / L i i
termination_by i => i
decreasing_by
  exact Finset.mem_range.mp j.2

/-- Embedding of `solveLT(L, b)` (backward substitution on `Lᵗ`):
`x[i] = (b[i] - Σ_{i<j<n} L[j][i]·x[j]) / L[i][i]`, `n = L.length`. -/
def solveLT (n : ℕ) (L : ℕ → ℕ → ℝ) (b : ℕ → ℝ) : ℕ → ℝ
  | i =>
    (b i - ∑ j ∈ (Finset.Ico (i + 1) n).attach, L j.1 i * solveLT n L b j.1) / L i i
termination_by i => n - i
decreasing_by
  have := Finset.mem_Ico.mp j.2; omega

/-- Embedding of `choleskySolve(L, b) = solveLT(L, solveL(L, b))`. -/
def choleskySolve (n : ℕ) (L : ℕ → ℕ → ℝ) (b : ℕ → ℝ) : ℕ → ℝ :=
  solveLT n L (solveL L b)

theorem solveL_eq (L : ℕ → ℕ → ℝ) (b : ℕ → ℝ) (i : ℕ) :
    solveL L b i = (b i - ∑ j ∈ Finset.range i, L i j * solveL L b j) / L i i := by
  rw [solveL]
  congr 1
  rw [← Finset.sum_attach (Finset.range i) (fun j => L i j * solveL L b j)]

theorem solveLT_eq (n : ℕ) (L : ℕ → ℕ → ℝ) (b : ℕ → ℝ) (i : ℕ) :
    solveLT n L b i =
      (b i - ∑ j ∈ Finset.Ico (i + 1) n, L j i * solveLT n L b j) / L i i := by
  rw [solveLT]
  congr 1
  rw [← Finset.sum_attach (Finset.Ico (i + 1) n) (fun j => L j i * solveLT n L b j)]

theorem cholesky_diag (A : ℕ → ℕ → ℝ) (i : ℕ) :
    cholesky A i i =
      Real.sqrt (max (A i i - ∑ k ∈ Finset.range i, (cholesky A i k) ^ 2) 1e-10) := by
  rw [cholesky]
  rw [if_neg (lt_irrefl i), if_pos rfl]
  congr 2
  rw [← Finset.sum_attach (Finset.range i) (fun k => (cholesky A i k) ^ 2)]

theorem cholesky_off (A : ℕ → ℕ → ℝ) (i j : ℕ) (h : j < i) :
    cholesky A i j =
      (A i j - ∑ k ∈ Finset.range j, cholesky A i k * cholesky A j k) /
        cholesky A j j := by
  rw [cholesky]
  rw [if_neg (by omega), if_neg (by omega)]
  congr 2
  rw [← Finset.sum_attach (Finset.range j) (fun k => cholesky A i k * cholesky A j k)]

theorem cholesky_upper (A : ℕ → ℕ → ℝ) (i j : ℕ) (h : i < j) :
    cholesky A i j = 0 := by
  rw [cholesky, if_pos h]

/-- Embedding of the RBF kernel:
`σ² * exp(-0.5 * d * d / l2)` with `d = x1 - x2`, `l2 = lengthScale ** 2`. -/
def rbf (x1 x2 lengthScale signalVariance : ℝ) : ℝ :=
  signalVariance * Real.exp (-0.5 * ((x1 - x2) * (x1 - x2)) / lengthScale ^ 2)

/-- Embedding of the Matérn 1/2 kernel: `σ² * exp(-r)`, `r = |x1 - x2| / ℓ`. -/
def matern12 (x1 x2 lengthScale signalVariance : ℝ) : ℝ :=
  signalVariance * Real.exp (-(|x1 - x2| / lengthScale))

/-- Embedding of the Matérn 3/2 kernel:
`σ² * (1 + √3·r) * exp(-√3·r)`, `r = |x1 - x2| / ℓ`. -/
def matern32 (x1 x2 lengthScale signalVariance : ℝ) : ℝ :=
  signalVariance * (1 + Real.sqrt 3 * (|x1 - x2| / lengthScale)) *
    Real.exp (-(Real.sqrt 3 * (|x1 - x2| / lengthScale)))

/-- Embedding of the Matérn 5/2 kernel:
`σ² * (1 + √5·r + 5r²/3) * exp(-√5·r)`, `r = |x1 - x2| / ℓ`. -/
def matern52 (x1 x2 lengthScale signalVariance : ℝ) : ℝ :=
  signalVariance *
    (1 + Real.sqrt 5 * (|x1 - x2| / lengthScale) +
      5 * (|x1 - x2| / lengthScale) * (|x1 - x2| / lengthScale) / 3) *
    Real.exp (-(Real.sqrt 5 * (|x1 - x2| / lengthScale)))

/-- Kernel function type (`KernelFn`). -/
def KernelFn : Type := ℝ → ℝ → ℝ → ℝ → ℝ

/-- The own data properties of the `KERNEL_FNS` object literal: the four
registered kernels, keyed by name; `none` when `name` is not an own
property.  The literal also inherits `Object.prototype`, so the full
JavaScript property access `KERNEL_FNS[name]` is modelled separately by
`kernelFnsLookup`, which falls through to the prototype chain when this map
gives `none`. -/
def KERNEL_FNS (name : String) : Option KernelFn :=
  match name with
  | "rbf" => some rbf
  | "matern12" => some matern12
  | "matern32" => some matern32
  | "matern52" => some matern52
  | _ => none

/-- Numeric embedding of
`kernelMatrix(x1, x2, lengthScale, signalVariance, kernelName)`:
`kernelFn = KERNEL_FNS[kernelName] || rbf`, then the rectangular matrix of
pairwise kernel evaluations.  This numeric form is the JavaScript behavior
exactly when the kernel name is registered or its JavaScript lookup yields
`undefined`; the full lookup-and-call semantics, including the
`Object.prototype` chain, is `kernelMatrixJS` below, and
`kernelMatrixJS_agrees` delimits the agreement. -/
def kernelMatrix (x1 x2 : List ℝ) (lengthScale signalVariance : ℝ)
    (kernelName : String) : List (List ℝ) :=
  x1.map (fun xi => x2.map (fun xj =>
    ((KERNEL_FNS kernelName).getD rbf) xi xj lengthScale signalVariance))

/-- Embedding of the `ObservationPoint` type. -/
structure ObservationPoint where
  x : ℝ
  y : ℝ

/-- Embedding of the `GPParams` type (`kernel?` is optional). -/
structure GPParams where
  kernel : Option String
  lengthScale : ℝ
  signalVariance : ℝ
  noiseLevel : ℝ

/-- Embedding of the `PosteriorResult` type. -/
structure PosteriorResult where
  mean : List ℝ
  variance : List ℝ

/-- Embedding of `computePosterior(points, testX, params)`.

With no observations it returns the prior (mean 0, variance `signalVariance`).
Otherwise it regularizes `K(X,X)` by `noiseLevel² + 1e-8` on the diagonal,
factorizes it, computes `alpha = solveL(L, y)` (forward solve only), and for
each test index `i` the row `v_i = solveL(L, K_Xs[i])`,
`mean_i = Σ_j v_i[j]·alpha[j]`, `variance_i = max(k_ss - Σ_j v_i[j]², 1e-10)`,
accumulated in test-point order. -/
def computePosterior (points : List ObservationPoint) (testX : List ℝ)
    (params : GPParams) : PosteriorResult :=
  let n := points.length
  let m := testX.length
  let kernelName := params.kernel.getD "rbf"
  if n = 0 then
    { mean := List.replicate m 0, variance := List.replicate m params.signalVariance }
  else
    let X := points.map ObservationPoint.x
    let y := points.map ObservationPoint.y
    let K_XX := addDiag (kernelMatrix X X params.lengthScale params.signalVariance kernelName)
      (params.noiseLevel ^ 2 + 1e-8)
    let L := cholesky (entry K_XX)
    let K_Xs := kernelMatrix testX X params.lengthScale params.signalVariance kernelName
    let alpha := solveL L (vecEntry y)
    let k_ss := params.signalVariance
    let v := fun i => solveL L (vecEntry (K_Xs.getD i []))
    { mean := (List.range m).map (fun i => ∑ j ∈ Finset.range n, v i j * alpha j),
      variance := (List.range m).map (fun i =>
        max (k_ss - ∑ j ∈ Finset.range n, v i j ^ 2) 1e-10) }

/-- Embedding of `sampleFromGP(points, sampleX, params)`, with the sequence of
`randn()` draws made explicit as `z`.  The external `numpy.matmul` used for
`VᵗV` is modelled as the matrix product it computes.  `V[j][i]` is coordinate
`j` of `solveL(L_XX, K_Xs[i])`. -/
def sampleFromGP (points : List ObservationPoint) (sampleX : List ℝ)
    (params : GPParams) (z : ℕ → ℝ) : List ℝ :=
  let m := sampleX.length
  let n := points.length
  let kernelName := params.kernel.getD "rbf"
  if n = 0 then
    let K := addDiag (kernelMatrix sampleX sampleX params.lengthScale params.signalVariance
      kernelName) 1e-8
    let L := cholesky (entry K)
    (List.range m).map (fun i => ∑ j ∈ Finset.range m, L i j * z j)
  else
    let X := points.map ObservationPoint.x
    let y := points.map ObservationPoint.y
    let K_XX := addDiag (kernelMatrix X X params.lengthScale params.signalVariance kernelName)
      (params.noiseLevel ^ 2 + 1e-8)
    let L_XX := cholesky (entry K_XX)
    let K_Xs := kernelMatrix sampleX X params.lengthScale params.signalVariance kernelName
    let K_ss := kernelMatrix sampleX sampleX params.lengthScale params.signalVariance kernelName
    let alpha := choleskySolve n L_XX (vecEntry y)
    let mu := fun i => ∑ j ∈ Finset.range n, entry K_Xs i j * alpha j
    let V := fun j i => solveL L_XX (vecEntry (K_Xs.getD i [])) j
    let VtV := fun i j => ∑ k ∈ Finset.range n, V k i * V k j
    let Sigma := fun i j => entry K_ss i j - VtV i j
    let Sigma_jit := fun i j => if i = j then Sigma i j + 1e-6 else Sigma i j
    let L_Sigma := cholesky Sigma_jit
    let Lz := fun i => ∑ j ∈ Finset.range m, L_Sigma i j * z j
    (List.range m).map (fun i => mu i + Lz i)

/-- The Cholesky diagonal is bounded below by `sqrt(1e-10)`, for any input. -/
theorem cholesky_diag_ge (A : ℕ → ℕ → ℝ) (i : ℕ) :
    Real.sqrt 1e-10 ≤ cholesky A i i := by
  rw [cholesky_diag]
  exact Real.sqrt_le_sqrt (le_max_right _ _)

/-- The Cholesky diagonal is strictly positive, for any input. -/
theorem cholesky_diag_pos (A : ℕ → ℕ → ℝ) (i : ℕ) : 0 < cholesky A i i := by
  have h1 : (0:ℝ) < Real.sqrt 1e-10 := Real.sqrt_pos.mpr (by norm_num)
  exact lt_of_lt_of_le h1 (cholesky_diag_ge A i)

/-- Correctness of forward substitution: if `L` is lower triangular on the
`n × n` block with nonzero diagonal, then `x = solveL L b` satisfies
`(L·x)_i = b_i` for every `i < n`. -/
theorem solveL_spec (n : ℕ) (L : ℕ → ℕ → ℝ) (b : ℕ → ℝ)
    (hlow : ∀ i j, i < j → j < n → L i j = 0)
    (hdiag : ∀ i, i < n → L i i ≠ 0)
    (i : ℕ) (hi : i < n) :
    ∑ j ∈ Finset.range n, L i j * solveL L b j = b i := by
  rw [← Finset.sum_range_add_sum_Ico (fun j => L i j * solveL L b j)
    (show i + 1 ≤ n by omega)]
  have h2 : ∑ j ∈ Finset.Ico (i + 1) n, L i j * solveL L b j = 0 := by
    refine Finset.sum_eq_zero fun j hj => ?_
    have hj2 := Finset.mem_Ico.mp hj
    rw [hlow i j (by omega) (by omega), zero_mul]
  have h1 : L i i * solveL L b i
      = b i - ∑ j ∈ Finset.range i, L i j * solveL L b j := by
    rw [solveL_eq, mul_div_cancel₀ _ (hdiag i hi)]
  rw [Finset.sum_range_succ, h1, h2]
  ring

/-- Correctness of backward substitution: if `L` is lower triangular on the
`n × n` block with nonzero diagonal, then `x = solveLT n L b` satisfies
`(Lᵗ·x)_i = b_i` for every `i < n`. -/
theorem solveLT_spec (n : ℕ) (L : ℕ → ℕ → ℝ) (b : ℕ → ℝ)
    (hlow : ∀ i j, i < j → j < n → L i j = 0)
    (hdiag : ∀ i, i < n → L i i ≠ 0)
    (i : ℕ) (hi : i < n) :
    ∑ j ∈ Finset.range n, L j i * solveLT n L b j = b i := by
  rw [← Finset.sum_range_add_sum_Ico (fun j => L j i * solveLT n L b j)
    (show i + 1 ≤ n by omega)]
  have h0 : ∑ j ∈ Finset.range i, L j i * solveLT n L b j = 0 := by
    refine Finset.sum_eq_zero fun j hj => ?_
    have hj2 := Finset.mem_range.mp hj
    rw [hlow j i (by omega) hi, zero_mul]
  have h1 : L i i * solveLT n L b i
      = b i - ∑ j ∈ Finset.Ico (i + 1) n, L j i * solveLT n L b j := by
    rw [solveLT_eq, mul_div_cancel₀ _ (hdiag i hi)]
  rw [Finset.sum_range_succ, h0, h1]
  ring

/-- Adjoint identity behind the two mean-computation paths: for a
lower-triangular `L` with nonzero diagonal, the dot product of the two
forward solves equals the dot product of the raw vector with the full
two-step solve. -/
theorem forward_dot_eq_full_dot (n : ℕ) (L : ℕ → ℕ → ℝ)
    (hlow : ∀ i j, i < j → j < n → L i j = 0)
    (hdiag : ∀ i, i < n → L i i ≠ 0)
    (b c : ℕ → ℝ) :
    ∑ j ∈ Finset.range n, solveL L b j * solveL L c j
      = ∑ j ∈ Finset.range n, b j * choleskySolve n L c j := by
  have hback : ∀ j ∈ Finset.range n,
      solveL L c j = ∑ l ∈ Finset.range n, L l j * choleskySolve n L c l := by
    intro j hj
    exact (solveLT_spec n L (solveL L c) hlow hdiag j (Finset.mem_range.mp hj)).symm
  have hfwd : ∀ l ∈ Finset.range n,
      ∑ j ∈ Finset.range n, solveL L b j * L l j = b l := by
    intro l hl
    rw [Finset.sum_congr rfl fun j _ => mul_comm (solveL L b j) (L l j)]
    exact solveL_spec n L b hlow hdiag l (Finset.mem_range.mp hl)
  calc
    ∑ j ∈ Finset.range n, solveL L b j * solveL L c j
        = ∑ j ∈ Finset.range n, solveL L b j *
            (∑ l ∈ Finset.range n, L l j * choleskySolve n L c l) := by
          exact Finset.sum_congr rfl fun j hj => by rw [← hback j hj]
    _ = ∑ l ∈ Finset.range n,
          (∑ j ∈ Finset.range n, solveL L b j * L l j) * choleskySolve n L c l := by
          simp only [Finset.mul_sum, Finset.sum_mul, mul_assoc]
          exact Finset.sum_comm
    _ = ∑ l ∈ Finset.range n, b l * choleskySolve n L c l :=
          Finset.sum_congr rfl fun l hl => by rw [hfwd l hl]

/-- Reading the `i`-th entry of a mapped range list, in range. -/
theorem getD_map_range {α : Type} (f : ℕ → α) (m i : ℕ) (h : i < m) (d : α) :
    ((List.range m).map f).getD i d = f i := by
  rw [List.getD_eq_getElem?_getD, List.getElem?_map, List.getElem?_range h]
  rfl

/-- C1: with zero observations, `computePosterior` returns the prior for any
kernel name, any parameters with nonnegative signal variance, and any
nonempty query set: mean ≡ 0 and variance ≡ `signalVariance`, both of length
`testX.length`; the result does not depend on the kernel name, length scale,
or noise level (no kernel evaluation or factorization enters this path). -/
theorem computePosterior_prior (points : List ObservationPoint) (testX : List ℝ)
    (params : GPParams) (hobs : points = []) (hq : testX ≠ [])
    (hsv : 0 ≤ params.signalVariance) :
    (computePosterior points testX params).mean = List.replicate testX.length 0
    ∧ (computePosterior points testX params).variance
        = List.replicate testX.length params.signalVariance
    ∧ (computePosterior points testX params).mean.length = testX.length
    ∧ (computePosterior points testX params).variance.length = testX.length
    ∧ ∀ k ℓ ν, computePosterior points testX ⟨k, ℓ, params.signalVariance, ν⟩
        = computePosterior points testX params := by
  subst hobs
  refine ⟨?_, ?_, ?_, ?_, ?_⟩ <;> simp [computePosterior]

theorem computePosterior_prior_witness :
    ([] : List ObservationPoint) = [] ∧ ([0] : List ℝ) ≠ [] ∧ (0:ℝ) ≤ 1
    ∧ (computePosterior [] [0] ⟨some "rbf", 1, 1, 0⟩).mean = List.replicate 1 0 :=
  ⟨rfl, by simp, by norm_num,
    (computePosterior_prior [] [0] ⟨some "rbf", 1, 1, 0⟩ rfl (by simp) (by norm_num)).1⟩

/-- C9: `linspace(start, stop, n)` with `n ≥ 2` returns exactly `n` points,
element `i` being `start + i·(stop−start)/(n−1)`. -/
theorem linspace_spec (start stop : ℝ) (n : ℕ) (h : 2 ≤ n) :
    (linspace start stop n).length = n
    ∧ ∀ i < n, (linspace start stop n).getD i 0
        = start + i * (stop - start) / ((n : ℝ) - 1) := by
  constructor
  · rw [linspace, List.length_map, List.length_range]
  · intro i hi
    rw [linspace, getD_map_range _ n i hi, mul_div_assoc]

theorem linspace_spec_witness :
    2 ≤ 5 ∧ (linspace 0 10 5).length = 5
    ∧ linspace (0:ℝ) 10 5 = [0, 2.5, 5, 7.5, 10] :=
  ⟨by norm_num, (linspace_spec 0 10 5 (by norm_num)).1,
    by norm_num [linspace, List.range_succ]⟩

/-- C4: `cholesky(A)` returns the lower-triangular matrix generated by the
classic recurrence: below the diagonal
`L[i][j] = (A[i][j] − Σ_{k<j} L[i][k]·L[j][k]) / L[j][j]`, on the diagonal
`L[i][i] = sqrt(max(A[i][i] − Σ_{k<i} L[i][k]², 1e-10))`, and zero above. -/
theorem cholesky_recurrence (A : ℕ → ℕ → ℝ) (i j : ℕ) (h : j < i) :
    cholesky A i j
      = (A i j - ∑ k ∈ Finset.range j, cholesky A i k * cholesky A j k) /
          cholesky A j j
    ∧ cholesky A i i
      = Real.sqrt (max (A i i - ∑ k ∈ Finset.range i, (cholesky A i k) ^ 2) 1e-10)
    ∧ ∀ a b : ℕ, a < b → cholesky A a b = 0 :=
  ⟨cholesky_off A i j h, cholesky_diag A i, fun a b hab => cholesky_upper A a b hab⟩

theorem cholesky_recurrence_witness :
    (0:ℕ) < 1 ∧ cholesky (fun _ _ => (4:ℝ)) 1 0
      = (4 - ∑ k ∈ Finset.range 0, cholesky (fun _ _ => (4:ℝ)) 1 k *
          cholesky (fun _ _ => (4:ℝ)) 0 k) / cholesky (fun _ _ => (4:ℝ)) 0 0 :=
  ⟨by decide, (cholesky_recurrence (fun _ _ => (4:ℝ)) 1 0 (by decide)).1⟩

/-- C10: for every square input, `cholesky` returns a matrix that is zero
above the diagonal and whose diagonal entries are at least
`sqrt(1e-10) > 0`; hence every division by a diagonal entry of a `cholesky`
result (in `solveL`, `solveLT`, and inside `cholesky` itself) has a nonzero
denominator. -/
theorem cholesky_safe (A : ℕ → ℕ → ℝ) :
    (∀ i j : ℕ, i < j → cholesky A i j = 0)
    ∧ (∀ i : ℕ, Real.sqrt 1e-10 ≤ cholesky A i i)
    ∧ (0:ℝ) < Real.sqrt 1e-10
    ∧ (∀ i : ℕ, cholesky A i i ≠ 0) :=
  ⟨fun i j hij => cholesky_upper A i j hij,
    fun i => cholesky_diag_ge A i,
    Real.sqrt_pos.mpr (by norm_num),
    fun i => (cholesky_diag_pos A i).ne'⟩

theorem cholesky_safe_witness :
    cholesky (fun _ _ => (0:ℝ)) 0 1 = 0 ∧ (0:ℝ) < Real.sqrt 1e-10 :=
  ⟨(cholesky_safe (fun _ _ => 0)).1 0 1 (by decide),
    (cholesky_safe (fun _ _ => 0)).2.2.1⟩

/-- C6: each registered kernel (rbf, matern12, matern32, matern52) satisfies,
for any real inputs, any length scale `ℓ > 0`, and any signal variance
`σ² ≥ 0`: the self-kernel equals the signal variance, the kernel is symmetric
in its two inputs, and the kernel value is never negative. -/
theorem kernel_contract (x x1 x2 ℓ σ2 : ℝ) (hl : 0 < ℓ) (hσ : 0 ≤ σ2) :
    (rbf x x ℓ σ2 = σ2 ∧ matern12 x x ℓ σ2 = σ2 ∧ matern32 x x ℓ σ2 = σ2
      ∧ matern52 x x ℓ σ2 = σ2)
    ∧ (rbf x1 x2 ℓ σ2 = rbf x2 x1 ℓ σ2
      ∧ matern12 x1 x2 ℓ σ2 = matern12 x2 x1 ℓ σ2
      ∧ matern32 x1 x2 ℓ σ2 = matern32 x2 x1 ℓ σ2
      ∧ matern52 x1 x2 ℓ σ2 = matern52 x2 x1 ℓ σ2)
    ∧ (0 ≤ rbf x1 x2 ℓ σ2 ∧ 0 ≤ matern12 x1 x2 ℓ σ2
      ∧ 0 ≤ matern32 x1 x2 ℓ σ2 ∧ 0 ≤ matern52 x1 x2 ℓ σ2) := by
  have hr : 0 ≤ |x1 - x2| / ℓ := div_nonneg (abs_nonneg _) hl.le
  have h3 : 0 ≤ Real.sqrt 3 * (|x1 - x2| / ℓ) := mul_nonneg (Real.sqrt_nonneg 3) hr
  have h5 : 0 ≤ Real.sqrt 5 * (|x1 - x2| / ℓ) := mul_nonneg (Real.sqrt_nonneg 5) hr
  have hq5 : 0 ≤ 5 * (|x1 - x2| / ℓ) * (|x1 - x2| / ℓ) / 3 :=
    div_nonneg (mul_nonneg (mul_nonneg (by norm_num) hr) hr) (by norm_num)
  refine ⟨⟨?_, ?_, ?_, ?_⟩, ⟨?_, ?_, ?_, ?_⟩, ⟨?_, ?_, ?_, ?_⟩⟩
  · simp [rbf]
  · simp [matern12]
  · simp [matern32]
  · simp [matern52]
  · unfold rbf
    rw [show (x1 - x2) * (x1 - x2) = (x2 - x1) * (x2 - x1) by ring]
  · unfold matern12
    rw [abs_sub_comm x1 x2]
  · unfold matern32
    rw [abs_sub_comm x1 x2]
  · unfold matern52
    rw [abs_sub_comm x1 x2]
  · exact mul_nonneg hσ (Real.exp_pos _).le
  · exact mul_nonneg hσ (Real.exp_pos _).le
  · exact mul_nonneg (mul_nonneg hσ (by linarith)) (Real.exp_pos _).le
  · exact mul_nonneg (mul_nonneg hσ (by linarith)) (Real.exp_pos _).le

theorem kernel_contract_witness :
    (0:ℝ) < 1 ∧ (0:ℝ) ≤ 2 ∧ rbf 3 3 1 2 = 2 :=
  ⟨by norm_num, by norm_num,
    ((kernel_contract 3 0 1 1 2 (by norm_num) (by norm_num)).1).1⟩

/-- C5: round-trip of the Cholesky solve: for a matrix `L` that is lower
triangular on the `n × n` block with nonzero diagonal and any vector `b`,
applying `L·Lᵗ` to `choleskySolve(L, b)` reconstructs `b`; moreover
`choleskySolve(L, b)` is exactly `solveLT(L, solveL(L, b))`. -/
theorem choleskySolve_roundtrip (n : ℕ) (L : ℕ → ℕ → ℝ) (b : ℕ → ℝ)
    (hlow : ∀ i j : ℕ, i < j → j < n → L i j = 0)
    (hdiag : ∀ i : ℕ, i < n → L i i ≠ 0) :
    (∀ i < n, ∑ j ∈ Finset.range n,
        (∑ k ∈ Finset.range n, L i k * L j k) * choleskySolve n L b j = b i)
    ∧ choleskySolve n L b = solveLT n L (solveL L b) := by
  constructor
  · intro i hi
    have hback : ∀ k ∈ Finset.range n,
        ∑ j ∈ Finset.range n, L j k * choleskySolve n L b j = solveL L b k :=
      fun k hk => solveLT_spec n L (solveL L b) hlow hdiag k (Finset.mem_range.mp hk)
    calc
      ∑ j ∈ Finset.range n,
          (∑ k ∈ Finset.range n, L i k * L j k) * choleskySolve n L b j
          = ∑ k ∈ Finset.range n, L i k *
              ∑ j ∈ Finset.range n, L j k * choleskySolve n L b j := by
            simp only [Finset.sum_mul, Finset.mul_sum, mul_assoc]
            exact Finset.sum_comm
      _ = ∑ k ∈ Finset.range n, L i k * solveL L b k :=
            Finset.sum_congr rfl fun k hk => by rw [hback k hk]
      _ = b i := solveL_spec n L b hlow hdiag i hi
  · rfl

theorem choleskySolve_roundtrip_witness :
    ∑ j ∈ Finset.range 2, (∑ k ∈ Finset.range 2,
        (fun i j : ℕ => if i < j then (0:ℝ) else if i = j then 1 else 2) 0 k *
        (fun i j : ℕ => if i < j then (0:ℝ) else if i = j then 1 else 2) j k) *
      choleskySolve 2 (fun i j : ℕ => if i < j then (0:ℝ) else if i = j then 1 else 2)
        (fun _ => 1) j = 1 :=
  (choleskySolve_roundtrip 2
    (fun i j : ℕ => if i < j then (0:ℝ) else if i = j then 1 else 2)
    (fun _ => 1)
    (fun i j hij hj => by simp [hij])
    (fun i hi => by simp)).1 0 (by norm_num)

/-- C3: over exact real arithmetic, for any nonempty observation set, any
query inputs, and any parameters, the posterior mean computed by
`computePosterior` (per-query forward solve `v_i = solveL(L, K_Xs[i])` dotted
with the forward-only `alpha = solveL(L, y)`) coincides with the posterior
mean used by the posterior branch of `sampleFromGP`
(`matVec(K_Xs, choleskySolve(L_XX, y))`): instantiating the random draws at
zero makes `sampleFromGP` return exactly that mean vector, and it equals
`computePosterior`'s mean. -/
theorem mean_paths_agree (points : List ObservationPoint) (testX : List ℝ)
    (params : GPParams) (h : points ≠ []) :
    (computePosterior points testX params).mean
      = sampleFromGP points testX params (fun _ => 0) := by
  have hn : ¬ points.length = 0 := by simpa using h
  simp only [computePosterior, sampleFromGP, hn, if_false, mul_zero,
    Finset.sum_const_zero, add_zero]
  refine List.map_congr_left fun i hi => ?_
  exact forward_dot_eq_full_dot points.length _
    (fun a b hab hbn => cholesky_upper _ a b hab)
    (fun a ha => (cholesky_diag_pos _ a).ne')
    _ _

theorem mean_paths_agree_witness :
    ([⟨0, 1⟩] : List ObservationPoint) ≠ []
    ∧ (computePosterior [⟨0, 1⟩] [2] ⟨none, 1, 1, 0⟩).mean
        = sampleFromGP [⟨0, 1⟩] [2] ⟨none, 1, 1, 0⟩ (fun _ => 0) :=
  ⟨by simp, mean_paths_agree [⟨0, 1⟩] [2] ⟨none, 1, 1, 0⟩ (by simp)⟩

/-- The regularized training covariance named in the spec:
`K(X,X)` with `noiseLevel² + 1e-8` added to the diagonal. -/
def trainCov (points : List ObservationPoint) (params : GPParams) : List (List ℝ) :=
  addDiag (kernelMatrix (points.map ObservationPoint.x) (points.map ObservationPoint.x)
      params.lengthScale params.signalVariance (params.kernel.getD "rbf"))
    (params.noiseLevel ^ 2 + 1e-8)

/-- The Cholesky factor `L` of the regularized training covariance. -/
def postFactor (points : List ObservationPoint) (params : GPParams) : ℕ → ℕ → ℝ :=
  cholesky (entry (trainCov points params))

/-- The cross covariance `K(X*, X)` between query inputs and observation
inputs. -/
def crossCov (points : List ObservationPoint) (testX : List ℝ) (params : GPParams) :
    List (List ℝ) :=
  kernelMatrix testX (points.map ObservationPoint.x) params.lengthScale
    params.signalVariance (params.kernel.getD "rbf")

/-- C2: with at least one observation, `computePosterior` follows the stated
algorithm: `L` is the Cholesky factor of `K(X,X)` with `noiseLevel² + 1e-8`
on the diagonal; `alpha = solveL(L, y)` (a forward solve only, not a
two-step system solve); for each query index `i`,
`v_i = solveL(L, K(X*,X)[i])`, `mean_i = v_i · alpha`, and
`variance_i = max(signalVariance − ‖v_i‖², 1e-10)`; both outputs have one
entry per query input, in the order supplied. -/
theorem computePosterior_formulas (points : List ObservationPoint) (testX : List ℝ)
    (params : GPParams) (h : points ≠ []) :
    (computePosterior points testX params).mean.length = testX.length
    ∧ (computePosterior points testX params).variance.length = testX.length
    ∧ ∀ i < testX.length,
        (computePosterior points testX params).mean.getD i 0
          = ∑ j ∈ Finset.range points.length,
              solveL (postFactor points params)
                (vecEntry ((crossCov points testX params).getD i [])) j
              * solveL (postFactor points params)
                (vecEntry (points.map ObservationPoint.y)) j
        ∧ (computePosterior points testX params).variance.getD i 0
          = max (params.signalVariance
              - ∑ j ∈ Finset.range points.length,
                  (solveL (postFactor points params)
                    (vecEntry ((crossCov points testX params).getD i [])) j) ^ 2)
              1e-10 := by
  have hn : ¬ points.length = 0 := by simpa using h
  simp only [computePosterior, hn, if_false]
  refine ⟨by simp, by simp, fun i hi => ⟨?_, ?_⟩⟩
  · rw [getD_map_range _ _ i hi]
    simp only [postFactor, trainCov, crossCov]
  · rw [getD_map_range _ _ i hi]
    simp only [postFactor, trainCov, crossCov]

theorem computePosterior_formulas_witness :
    ([⟨0, 1⟩] : List ObservationPoint) ≠ []
    ∧ (computePosterior [⟨0, 1⟩] [0] ⟨none, 1, 1, 0⟩).mean.length = 1 :=
  ⟨by simp, (computePosterior_formulas [⟨0, 1⟩] [0] ⟨none, 1, 1, 0⟩ (by simp)).1⟩

theorem kernelMatrix_fallback (x1 x2 : List ℝ) (l s : ℝ) (name : String)
    (h : KERNEL_FNS name = none) :
    kernelMatrix x1 x2 l s name = kernelMatrix x1 x2 l s "rbf" := by
  unfold kernelMatrix
  rw [h]
  rfl

/-- A JavaScript value reachable through the property access
`KERNEL_FNS[kernelName]` on the kernel-registry object literal, or through a
call of the looked-up value.  The literal has the four kernels as own data
properties, but, being a plain object literal, it also inherits
`Object.prototype`, so property access can reach the inherited methods
(`toString`, `valueOf`, ...) and the `__proto__` accessor, whose getter
returns `Object.prototype` itself. -/
inductive JSValue where
  | kfn (k : KernelFn)
  | protoFn (name : String)
  | protoObj
  | undefined
  | num (v : ℝ)
  | str (s : String)
  | bool (b : Bool)
  | obj (v : ℝ)

/-- The standard methods of `Object.prototype`, inherited by every plain
object literal.  The `__proto__` accessor is handled separately in
`kernelFnsLookup`. -/
def OBJECT_PROTOTYPE_METHODS : List String :=
  ["constructor", "toString", "toLocaleString", "valueOf", "hasOwnProperty",
    "isPrototypeOf", "propertyIsEnumerable", "__defineGetter__",
    "__defineSetter__", "__lookupGetter__", "__lookupSetter__"]

/-- JavaScript property access `KERNEL_FNS[name]`: an own data property (one
of the four registered kernels) when present; otherwise the lookup continues
on the prototype chain, where `"__proto__"` yields `Object.prototype` itself
and the standard method names yield the inherited functions; only a name
found nowhere on the chain yields `undefined`. -/
def kernelFnsLookup (name : String) : JSValue :=
  match KERNEL_FNS name with
  | some k => JSValue.kfn k
  | none =>
    if name = "__proto__" then JSValue.protoObj
    else if name ∈ OBJECT_PROTOTYPE_METHODS then JSValue.protoFn name
    else JSValue.undefined

/-- JavaScript truthiness of a looked-up property value: `undefined` is
falsy; every function and object is truthy. -/
def JSValue.truthy : JSValue → Bool
  | JSValue.undefined => false
  | _ => true

/-- The resolution `KERNEL_FNS[kernelName] || rbf`: the looked-up value when
it is truthy, `rbf` otherwise.  Only a lookup that reached `undefined` falls
back to `rbf`; inherited prototype members are truthy and bypass the
fallback. -/
def kernelFnsResolve (name : String) : JSValue :=
  if (kernelFnsLookup name).truthy then kernelFnsLookup name else JSValue.kfn rbf

/-- Calling the resolved kernel value on numeric arguments, in the strict
mode of an ES module (a plain call has `this = undefined`): a registered
kernel returns its numeric value; `Object.prototype` (reached via
`"__proto__"`) is not callable, so the call throws a TypeError; of the
inherited methods, `toString` with an undefined `this` returns the string
"[object Undefined]", `constructor` (the `Object` constructor) wraps its
first argument in an object, `isPrototypeOf` returns `false` for a
non-object argument, and each remaining method (`toLocaleString`, `valueOf`,
`hasOwnProperty`, `propertyIsEnumerable`, and the `__defineGetter__` family)
coerces its `undefined` `this` value to an object and throws a TypeError. -/
def callKernelJS (v : JSValue) (x1 x2 lengthScale signalVariance : ℝ) :
    Except String JSValue :=
  match v with
  | JSValue.kfn k => Except.ok (JSValue.num (k x1 x2 lengthScale signalVariance))
  | JSValue.protoFn n =>
    if n = "toString" then Except.ok (JSValue.str "[object Undefined]")
    else if n = "constructor" then Except.ok (JSValue.obj x1)
    else if n = "isPrototypeOf" then Except.ok (JSValue.bool false)
    else Except.error "TypeError"
  | _ => Except.error "TypeError"

/-- JS-level `kernelMatrix`: the same pairwise map as `kernelMatrix`, but
with the kernel resolved by full JavaScript property lookup and every call
evaluated under JavaScript semantics; a thrown TypeError propagates out. -/
def kernelMatrixJS (x1 x2 : List ℝ) (lengthScale signalVariance : ℝ)
    (kernelName : String) : Except String (List (List JSValue)) :=
  x1.mapM (fun xi => x2.mapM (fun xj =>
    callKernelJS (kernelFnsResolve kernelName) xi xj lengthScale signalVariance))

theorem lookup_undefined_none (name : String)
    (h : kernelFnsLookup name = JSValue.undefined) : KERNEL_FNS name = none := by
  cases hk : KERNEL_FNS name with
  | none => rfl
  | some k =>
    unfold kernelFnsLookup at h
    rw [hk] at h
    simp at h

theorem mapM_ok {α β : Type} (g : α → β) (l : List α) :
    l.mapM (fun a => (Except.ok (g a) : Except String β)) = Except.ok (l.map g) := by
  induction l with
  | nil => rfl
  | cons a t ih =>
    rw [List.mapM_cons, ih]
    rfl

/-- Where the numeric embedding is the JavaScript behavior: whenever the
looked-up name is a registered kernel or resolves to `undefined` (so the
`|| rbf` fallback fires), the JS-level kernel matrix is the numeric
`kernelMatrix`, entry by entry, with no error. -/
theorem kernelMatrixJS_agrees (x1 x2 : List ℝ) (l s : ℝ) (name : String)
    (h : kernelFnsLookup name = JSValue.undefined ∨ ∃ k, KERNEL_FNS name = some k) :
    kernelMatrixJS x1 x2 l s name
      = Except.ok ((kernelMatrix x1 x2 l s name).map (fun row => row.map JSValue.num)) := by
  have hres : kernelFnsResolve name = JSValue.kfn ((KERNEL_FNS name).getD rbf) := by
    rcases h with h | ⟨k, hk⟩
    · have hnone := lookup_undefined_none name h
      unfold kernelFnsResolve
      rw [h, hnone]
      rfl
    · have hl : kernelFnsLookup name = JSValue.kfn k := by
        unfold kernelFnsLookup
        rw [hk]
      unfold kernelFnsResolve
      rw [hl, hk]
      rfl
  unfold kernelMatrixJS kernelMatrix
  rw [hres]
  have hinner : (fun xi => x2.mapM (fun xj =>
        callKernelJS (JSValue.kfn ((KERNEL_FNS name).getD rbf)) xi xj l s))
      = fun xi => Except.ok (x2.map (fun xj =>
          JSValue.num (((KERNEL_FNS name).getD rbf) xi xj l s))) := by
    funext xi
    exact mapM_ok _ _
  rw [hinner, mapM_ok]
  simp [List.map_map]

/-- The `"__proto__"` case: the lookup reaches the non-callable
`Object.prototype`, so the very first kernel evaluation throws, and the
TypeError propagates out of the kernel matrix construction. -/
theorem kernelMatrixJS_protoObj (x1 x2 : List ℝ) (l s : ℝ)
    (h1 : x1 ≠ []) (h2 : x2 ≠ []) :
    kernelMatrixJS x1 x2 l s "__proto__" = Except.error "TypeError" := by
  obtain ⟨a, t1, rfl⟩ := List.exists_cons_of_ne_nil h1
  obtain ⟨b, t2, rfl⟩ := List.exists_cons_of_ne_nil h2
  rfl

/-- C7 counterexample: the rbf fallback is not applied uniformly to every
name outside the registry, and an unknown name can surface as an error.
JavaScript property access on the `KERNEL_FNS` object literal consults the
`Object.prototype` chain, so `KERNEL_FNS["__proto__"]` is `Object.prototype`
itself: truthy (bypassing `|| rbf`) and not callable, so the first kernel
evaluation of the posterior path throws a TypeError; and
`KERNEL_FNS["toString"]` is the inherited method, whose call returns the
string "[object Undefined]" instead of the rbf value.  A genuinely absent
name ("perlin") does fall back to rbf. -/
theorem unknown_kernel_fallback_cex :
    kernelMatrixJS [0] [0] 1 1 "__proto__" = Except.error "TypeError"
    ∧ kernelMatrixJS [0] [0] 1 1 "toString"
        = Except.ok [[JSValue.str "[object Undefined]"]]
    ∧ kernelMatrixJS [0] [0] 1 1 "rbf"
        = Except.ok [[JSValue.num (rbf 0 0 1 1)]]
    ∧ kernelMatrixJS [0] [0] 1 1 "perlin"
        = Except.ok [[JSValue.num (rbf 0 0 1 1)]] :=
  ⟨rfl, rfl, rfl, rfl⟩

/-- C7 amended: the rbf fallback applies uniformly to every kernel name whose
JavaScript lookup on `KERNEL_FNS` yields `undefined`, i.e. every name that is
neither a registered kernel nor inherited from `Object.prototype` (and
likewise to an absent kernel field): for those, `computePosterior` and
`sampleFromGP` behave exactly as if `kernel = "rbf"` had been supplied, the
JS-level kernel matrices agree with the numeric embedding, and no error is
surfaced.  Names inherited from `Object.prototype` bypass the fallback; in
particular `"__proto__"` makes the kernel matrix construction of any
nonempty inference problem throw a TypeError. -/
theorem unknown_kernel_fallback_amended (points : List ObservationPoint)
    (qX : List ℝ) (params : GPParams) (name : String)
    (h : kernelFnsLookup name = JSValue.undefined) :
    computePosterior points qX { params with kernel := some name }
        = computePosterior points qX { params with kernel := some "rbf" }
    ∧ computePosterior points qX { params with kernel := none }
        = computePosterior points qX { params with kernel := some "rbf" }
    ∧ (∀ z, sampleFromGP points qX { params with kernel := some name } z
        = sampleFromGP points qX { params with kernel := some "rbf" } z)
    ∧ (∀ z, sampleFromGP points qX { params with kernel := none } z
        = sampleFromGP points qX { params with kernel := some "rbf" } z)
    ∧ kernelMatrixJS (points.map ObservationPoint.x) (points.map ObservationPoint.x)
        params.lengthScale params.signalVariance name
        = Except.ok ((kernelMatrix (points.map ObservationPoint.x)
            (points.map ObservationPoint.x) params.lengthScale
            params.signalVariance name).map (fun row => row.map JSValue.num))
    ∧ (∀ x1 x2 : List ℝ, x1 ≠ [] → x2 ≠ [] →
        kernelMatrixJS x1 x2 params.lengthScale params.signalVariance "__proto__"
          = Except.error "TypeError") := by
  have hnone := lookup_undefined_none name h
  have hk : ∀ x1 x2 : List ℝ,
      kernelMatrix x1 x2 params.lengthScale params.signalVariance name
        = kernelMatrix x1 x2 params.lengthScale params.signalVariance "rbf" :=
    fun x1 x2 => kernelMatrix_fallback x1 x2 _ _ name hnone
  refine ⟨?_, ?_, fun z => ?_, fun z => ?_, ?_, ?_⟩
  · simp only [computePosterior, Option.getD_some, hk]
  · simp only [computePosterior, Option.getD_some, Option.getD_none, hk]
  · simp only [sampleFromGP, Option.getD_some, hk]
  · simp only [sampleFromGP, Option.getD_some, Option.getD_none, hk]
  · exact kernelMatrixJS_agrees _ _ _ _ name (Or.inl h)
  · exact fun x1 x2 h1 h2 => kernelMatrixJS_protoObj x1 x2 _ _ h1 h2

theorem unknown_kernel_fallback_amended_witness :
    kernelFnsLookup "perlin" = JSValue.undefined
    ∧ computePosterior [] [0] ⟨some "perlin", 1, 1, 0⟩
        = computePosterior [] [0] ⟨some "rbf", 1, 1, 0⟩ :=
  ⟨rfl, (unknown_kernel_fallback_amended [] [0] ⟨some "perlin", 1, 1, 0⟩
    "perlin" rfl).1⟩

theorem foldl_nan_absorb (x : List ℝ) (t : List (ℕ × ℝ)) :
    t.foldl (fun s p => s.add ((JSNum.num p.2).mul (jsIdx x p.1))) JSNum.nan
      = JSNum.nan := by
  induction t with
  | nil => rfl
  | cons p t ih => exact ih

theorem foldl_nan_of_mem (x : List ℝ) (l : List (ℕ × ℝ)) (s : JSNum)
    (hmem : ∃ p ∈ l, x.length ≤ p.1) :
    l.foldl (fun s p => s.add ((JSNum.num p.2).mul (jsIdx x p.1))) s = JSNum.nan := by
  induction l generalizing s with
  | nil => simp at hmem
  | cons p t ih =>
    rcases hmem with ⟨q, hq, hxq⟩
    rcases List.mem_cons.mp hq with rfl | hqt
    · rw [List.foldl_cons]
      have hidx : jsIdx x q.1 = JSNum.nan := by
        unfold jsIdx
        rw [List.getElem?_eq_none hxq]
      rw [hidx]
      have h2 : s.add ((JSNum.num q.2).mul JSNum.nan) = JSNum.nan := by
        cases s <;> rfl
      rw [h2]
      exact foldl_nan_absorb x t
    · exact ih _ ⟨q, hqt, hxq⟩

/-- C8 counterexample: `matVec([[1,1]], [1])` — the column count 2 of the row
exceeds the vector length 1 — does not fail fast: it evaluates to a value,
namely `[NaN]` (out-of-range JavaScript indexing gives `undefined`, and
`1 * undefined` is NaN, absorbed by the running sum).  The primitive returns
a silently wrong numeric result rather than raising an assertion or error. -/
theorem matVec_mismatch_silent : matVecJS [[1, 1]] [1] = [JSNum.nan] := rfl

/-- C8 amended: on a dimension mismatch the primitives do not fail fast:
whenever row `i` of `A` is longer than `x`, `matVec(A, x)` still returns a
full result list whose entry `i` is NaN — a silent numeric result, with no
assertion or error raised. -/
theorem matVec_mismatch_nan (A : List (List ℝ)) (x : List ℝ) (i : ℕ)
    (hi : i < A.length) (hrow : x.length < (A.getD i []).length) :
    (matVecJS A x).getD i (JSNum.num 0) = JSNum.nan := by
  have hlen : i < (matVecJS A x).length := by simpa [matVecJS] using hi
  rw [List.getD_eq_getElem _ _ hlen]
  simp only [matVecJS, List.getElem_map]
  apply foldl_nan_of_mem
  have hrow2 : x.length < A[i].length := by
    rwa [List.getD_eq_getElem A [] hi] at hrow
  have hq : A[i].enum[x.length]? = some (x.length, A[i][x.length]) := by
    rw [List.getElem?_enum, List.getElem?_eq_getElem hrow2]
    rfl
  exact ⟨(x.length, A[i][x.length]), List.getElem?_mem hq, le_refl _⟩

theorem matVec_mismatch_nan_witness :
    (0:ℕ) < ([[1, 1, 1]] : List (List ℝ)).length
    ∧ ([1] : List ℝ).length < (([[1, 1, 1]] : List (List ℝ)).getD 0 []).length
    ∧ (matVecJS [[1, 1, 1]] [1]).getD 0 (JSNum.num 0) = JSNum.nan :=
  ⟨by simp, by simp, matVec_mismatch_nan [[1, 1, 1]] [1] 0 (by simp) (by simp)⟩
